import Mathlib

/-!
Verification of the Vigil proof-of-work consensus core against its
natural-language specification.  The definitions below are shallow
embeddings of the Go source files:

* `node/wire/blockheader.go` — the header codec,
* `node/blockchain/standalone/kawpow/kawpow.go` — the "simplified Keccak"
  version of the KawPow hash engine,
* the second kawpow version (full Keccak-f[1600] permutation),
* `node/internal/blockchain/validate.go` — `checkProofOfWork`,
* `node/internal/blockchain/difficulty.go` — difficulty retargeting and the
  coin-supply estimator,
* the RPC getwork submission path (`handleGetWorkSubmissionKawPow`,
  `serializeGetWorkDataKawPow`, `CheckKawPoWProof`).

Bytes are modelled as `Nat` values below 256, byte strings as `List Nat`.
Go `uint32`/`uint64` arithmetic is modelled with explicit `% 2 ^ 32` /
`% 2 ^ 64` reductions where overflow can occur.  Go `int64` division and
remainder truncate toward zero and are modelled with `Int.tdiv` / `Int.tmod`;
Go `big.Int` `Div`/`Mod` are Euclidean and are modelled with `Int` `/` / `%`.
-/

deriving instance DecidableEq for Except

/-- Little-endian encoding of a natural number into `w` bytes, as produced by
`binary.LittleEndian.PutUint16/32/64` (byte `i` is `n / 256 ^ i % 256`). -/
def leBytes : Nat → Nat → List Nat
  | 0, _ => []
  | w + 1, n => n % 256 :: leBytes w (n / 256)

/-- Little-endian decoding of a byte string into a natural number, as done by
`binary.LittleEndian.Uint16/32/64`. -/
def leNat : List Nat → Nat
  | [] => 0
  | b :: bs => b + 256 * leNat bs

theorem length_leBytes (w n : Nat) : (leBytes w n).length = w := by
  induction w generalizing n with
  | zero => rfl
  | succ w ih => simp [leBytes, ih]

theorem leNat_leBytes (w : Nat) : ∀ n : Nat, n < 256 ^ w → leNat (leBytes w n) = n := by
  induction w with
  | zero =>
    intro n h
    simp [pow_zero] at h
    simp [h, leBytes, leNat]
  | succ w ih =>
    intro n h
    have hdiv : n / 256 < 256 ^ w := by
      rw [Nat.div_lt_iff_lt_mul (by norm_num : 0 < 256)]
      calc n < 256 ^ (w + 1) := h
        _ = 256 ^ w * 256 := by rw [pow_succ]
    simp only [leBytes, leNat, ih (n / 256) hdiv]
    omega

theorem leBytes_lt (w n : Nat) : ∀ b ∈ leBytes w n, b < 256 := by
  induction w generalizing n with
  | zero => simp [leBytes]
  | succ w ih =>
    simp only [leBytes, List.mem_cons]
    rintro b (rfl | hb)
    · exact Nat.mod_lt _ (by norm_num)
    · exact ih (n / 256) b hb

/-- Conversion of a (possibly negative) integer to its `w`-bit two's-complement
bit pattern, as performed when Go writes an `int32`/`int64` on the wire. -/
def toUns (w : Nat) (v : Int) : Nat := (v % (2 : Int) ^ w).toNat

/-- Interpretation of a `w`-bit pattern as a signed two's-complement value, as
performed when Go reads an `int32`/`int64` from the wire. -/
def fromUns (w : Nat) (n : Nat) : Int :=
  if n < 2 ^ (w - 1) then (n : Int) else (n : Int) - (2 : Int) ^ w

theorem toUns_lt (w : Nat) (v : Int) : toUns w v < 2 ^ w := by
  unfold toUns
  have hpos : (0 : Int) < (2 : Int) ^ w := by positivity
  have hm1 := Int.emod_lt_of_pos v hpos
  have hm0 := Int.emod_nonneg v (ne_of_gt hpos)
  have hcast : ((2 ^ w : Nat) : Int) = (2 : Int) ^ w := by push_cast; ring
  omega

theorem toUns_emod (w : Nat) (v : Int) (h0 : 0 ≤ v) (h1 : v < (2 : Int) ^ w) :
    toUns w v = v.toNat := by
  unfold toUns
  rw [Int.emod_eq_of_lt h0 h1]

theorem fromUns_toUns32 (v : Int) (h1 : -(2 ^ 31) ≤ v) (h2 : v < 2 ^ 31) :
    fromUns 32 (toUns 32 v) = v := by
  unfold toUns fromUns
  norm_num at h1 h2 ⊢
  split_ifs with hc <;> omega

theorem fromUns_toUns64 (v : Int) (h1 : -(2 ^ 63) ≤ v) (h2 : v < 2 ^ 63) :
    fromUns 64 (toUns 64 v) = v := by
  unfold toUns fromUns
  norm_num at h1 h2 ⊢
  split_ifs with hc <;> omega

/-! ## Header codec (`node/wire/blockheader.go`) -/

/-- Shallow embedding of `wire.BlockHeader`.  Hash references and fixed-size
byte arrays are byte lists; the timestamp is the Unix-seconds value of the Go
`time.Time` field (an `Int`, truncated to `uint32` on the wire). -/
structure BlockHeader where
  version : Int
  prevBlock : List Nat
  merkleRoot : List Nat
  stakeRoot : List Nat
  voteBits : Nat
  finalState : List Nat
  voters : Nat
  freshStake : Nat
  revocations : Nat
  poolSize : Nat
  bits : Nat
  sbits : Int
  height : Nat
  size : Nat
  timestamp : Int
  nonce : Nat
  mixDigest : List Nat
  extraData : List Nat
  stakeVersion : Nat
deriving DecidableEq

/-- Embedding of `writeBlockHeader` (`wire/blockheader.go` lines 247-254): the
fields are written in declaration order, little-endian, with the timestamp
truncated to `uint32` seconds. -/
def writeBlockHeader (bh : BlockHeader) : List Nat :=
  leBytes 4 (toUns 32 bh.version) ++ bh.prevBlock ++ bh.merkleRoot ++ bh.stakeRoot ++
  leBytes 2 bh.voteBits ++ bh.finalState ++ leBytes 2 bh.voters ++ leBytes 1 bh.freshStake ++
  leBytes 1 bh.revocations ++ leBytes 4 bh.poolSize ++ leBytes 4 bh.bits ++
  leBytes 8 (toUns 64 bh.sbits) ++ leBytes 4 bh.height ++ leBytes 4 bh.size ++
  leBytes 4 (toUns 32 bh.timestamp) ++ leBytes 8 bh.nonce ++ bh.mixDigest ++ bh.extraData ++
  leBytes 4 bh.stakeVersion

/-- Sequential fixed-width read from a byte stream, as performed by the
`readElements` deserialization helpers: take `w` bytes, return them together
with the rest of the stream, failing when the stream is too short. -/
def readN (w : Nat) (bs : List Nat) : Option (List Nat × List Nat) :=
  if w ≤ bs.length then some (bs.take w, bs.drop w) else none

/-- Embedding of `readBlockHeader` (`wire/blockheader.go` lines 236-242): the
fields are read back sequentially, in the same order and widths used by
`writeBlockHeader`, each read consuming its bytes from the front of the
remaining stream; reading fails when the stream is too short (216 bytes are
consumed in total). -/
def readBlockHeader (bs : List Nat) : Option BlockHeader :=
  if 216 ≤ bs.length then
    let verB := bs.take 4
    let r1 := bs.drop 4
    let prevB := r1.take 32
    let r2 := r1.drop 32
    let merkleB := r2.take 32
    let r3 := r2.drop 32
    let stakeB := r3.take 32
    let r4 := r3.drop 32
    let vbB := r4.take 2
    let r5 := r4.drop 2
    let fsB := r5.take 6
    let r6 := r5.drop 6
    let votersB := r6.take 2
    let r7 := r6.drop 2
    let freshB := r7.take 1
    let r8 := r7.drop 1
    let revB := r8.take 1
    let r9 := r8.drop 1
    let poolB := r9.take 4
    let r10 := r9.drop 4
    let bitsB := r10.take 4
    let r11 := r10.drop 4
    let sbitsB := r11.take 8
    let r12 := r11.drop 8
    let heightB := r12.take 4
    let r13 := r12.drop 4
    let sizeB := r13.take 4
    let r14 := r13.drop 4
    let tsB := r14.take 4
    let r15 := r14.drop 4
    let nonceB := r15.take 8
    let r16 := r15.drop 8
    let mixB := r16.take 32
    let r17 := r16.drop 32
    let extraB := r17.take 32
    let r18 := r17.drop 32
    let svB := r18.take 4
    some {
      version := fromUns 32 (leNat verB)
      prevBlock := prevB
      merkleRoot := merkleB
      stakeRoot := stakeB
      voteBits := leNat vbB
      finalState := fsB
      voters := leNat votersB
      freshStake := leNat freshB
      revocations := leNat revB
      poolSize := leNat poolB
      bits := leNat bitsB
      sbits := fromUns 64 (leNat sbitsB)
      height := leNat heightB
      size := leNat sizeB
      timestamp := (leNat tsB : Int)
      nonce := leNat nonceB
      mixDigest := mixB
      extraData := extraB
      stakeVersion := leNat svB }
  else none

/-- Well-formedness of a header: every field fits the wire width of its Go
type and the fixed-size byte arrays have the right length and byte range.
This is exactly the set of headers representable on the wire. -/
def ValidHeader (bh : BlockHeader) : Prop :=
  -(2 ^ 31) ≤ bh.version ∧ bh.version < 2 ^ 31 ∧
  bh.prevBlock.length = 32 ∧ (∀ b ∈ bh.prevBlock, b < 256) ∧
  bh.merkleRoot.length = 32 ∧ (∀ b ∈ bh.merkleRoot, b < 256) ∧
  bh.stakeRoot.length = 32 ∧ (∀ b ∈ bh.stakeRoot, b < 256) ∧
  bh.voteBits < 2 ^ 16 ∧
  bh.finalState.length = 6 ∧ (∀ b ∈ bh.finalState, b < 256) ∧
  bh.voters < 2 ^ 16 ∧ bh.freshStake < 2 ^ 8 ∧ bh.revocations < 2 ^ 8 ∧
  bh.poolSize < 2 ^ 32 ∧ bh.bits < 2 ^ 32 ∧
  -(2 ^ 63) ≤ bh.sbits ∧ bh.sbits < 2 ^ 63 ∧
  bh.height < 2 ^ 32 ∧ bh.size < 2 ^ 32 ∧
  0 ≤ bh.timestamp ∧ bh.timestamp < 2 ^ 32 ∧
  bh.nonce < 2 ^ 64 ∧
  bh.mixDigest.length = 32 ∧ (∀ b ∈ bh.mixDigest, b < 256) ∧
  bh.extraData.length = 32 ∧ (∀ b ∈ bh.extraData, b < 256) ∧
  bh.stakeVersion < 2 ^ 32

instance (bh : BlockHeader) : Decidable (ValidHeader bh) := by
  unfold ValidHeader
  infer_instance

theorem readN_append (w : Nat) (x rest : List Nat) (hx : x.length = w) :
    readN w (x ++ rest) = some (x, rest) := by
  subst hx
  unfold readN
  rw [if_pos (by simp)]
  rw [List.take_left, List.drop_left]

theorem length_writeBlockHeader (bh : BlockHeader) (h : ValidHeader bh) :
    (writeBlockHeader bh).length = 216 := by
  obtain ⟨hv1, hv2, hpl, hpb, hml, hmb, hsl, hsb, hvb, hfl, hfb, hvo, hfs, hrv, hps, hbits,
    hsb1, hsb2, hh, hsz, ht1, ht2, hn, hmxl, hmxb, hexl, hexb, hsv⟩ := h
  simp [writeBlockHeader, length_leBytes, hpl, hml, hsl, hfl, hmxl, hexl]

theorem take_append_len (x r : List Nat) (n : Nat) (hx : x.length = n) :
    (x ++ r).take n = x := by
  subst hx
  exact List.take_left x r

theorem drop_append_len (x r : List Nat) (n : Nat) (hx : x.length = n) :
    (x ++ r).drop n = r := by
  subst hx
  exact List.drop_left x r

theorem take_len_self (x : List Nat) (n : Nat) (hx : x.length = n) : x.take n = x := by
  subst hx
  exact List.take_length x

theorem drop_append_add (x r : List Nat) (n m : Nat) (hx : x.length = n) :
    (x ++ r).drop (n + m) = r.drop m := by
  subst hx
  rw [← List.drop_drop, List.drop_left]

theorem toUns32_lt_pow (v : Int) : toUns 32 v < 256 ^ 4 := by
  have := toUns_lt 32 v
  norm_num at this ⊢
  omega

theorem toUns64_lt_pow (v : Int) : toUns 64 v < 256 ^ 8 := by
  have := toUns_lt 64 v
  norm_num at this ⊢
  omega

theorem toUns_cast32 (v : Int) (h0 : 0 ≤ v) (h1 : v < 2 ^ 32) :
    ((toUns 32 v : Nat) : Int) = v := by
  unfold toUns
  norm_num at h1 ⊢
  omega

/-- C4: for every valid block header, decoding the little-endian fixed-layout
encoding produced by `writeBlockHeader` with `readBlockHeader` returns exactly
the original header. -/
theorem blockHeader_roundTrip (bh : BlockHeader) (h : ValidHeader bh) :
    readBlockHeader (writeBlockHeader bh) = some bh := by
  have hlen := length_writeBlockHeader bh h
  obtain ⟨hv1, hv2, hpl, hpb, hml, hmb, hsl, hsb, hvb, hfl, hfb, hvo, hfs, hrv, hps, hbits,
    hsb1, hsb2, hh, hsz, ht1, ht2, hn, hmxl, hmxb, hexl, hexb, hsv⟩ := h
  have hvb' : bh.voteBits < 256 ^ 2 := lt_of_lt_of_eq hvb (by norm_num)
  have hvo' : bh.voters < 256 ^ 2 := lt_of_lt_of_eq hvo (by norm_num)
  have hfs' : bh.freshStake < 256 ^ 1 := lt_of_lt_of_eq hfs (by norm_num)
  have hrv' : bh.revocations < 256 ^ 1 := lt_of_lt_of_eq hrv (by norm_num)
  have hps' : bh.poolSize < 256 ^ 4 := lt_of_lt_of_eq hps (by norm_num)
  have hbits' : bh.bits < 256 ^ 4 := lt_of_lt_of_eq hbits (by norm_num)
  have hh' : bh.height < 256 ^ 4 := lt_of_lt_of_eq hh (by norm_num)
  have hsz' : bh.size < 256 ^ 4 := lt_of_lt_of_eq hsz (by norm_num)
  have hn' : bh.nonce < 256 ^ 8 := lt_of_lt_of_eq hn (by norm_num)
  have hsv' : bh.stakeVersion < 256 ^ 4 := lt_of_lt_of_eq hsv (by norm_num)
  unfold readBlockHeader
  rw [if_pos (by rw [hlen])]
  unfold writeBlockHeader
  simp only [List.append_assoc, take_append_len, drop_append_len, take_len_self, length_leBytes,
    hpl, hml, hsl, hfl, hmxl, hexl]
  simp only [leNat_leBytes, toUns32_lt_pow, toUns64_lt_pow, hvb', hvo', hfs', hrv', hps',
    hbits', hh', hsz', hn', hsv', fromUns_toUns32 bh.version hv1 hv2,
    fromUns_toUns64 bh.sbits hsb1 hsb2, toUns_cast32 bh.timestamp ht1 ht2]

/-- A concrete well-formed header used as evaluation input: it has
`height = 7`, `timestamp = 100`, and a mix digest whose bytes 4..8 encode 17
and whose bytes 20..24 encode 42. -/
def hdrKaw : BlockHeader where
  version := 1
  prevBlock := List.replicate 32 2
  merkleRoot := List.replicate 32 3
  stakeRoot := List.replicate 32 4
  voteBits := 5
  finalState := List.replicate 6 6
  voters := 65535
  freshStake := 8
  revocations := 9
  poolSize := 10
  bits := 486604799
  sbits := -12
  height := 7
  size := 14
  timestamp := 100
  nonce := 999
  mixDigest := [0, 0, 0, 0, 17, 0, 0, 0, 0, 0, 0, 0, 0, 0, 0, 0, 0, 0, 0, 0, 42, 0, 0, 0,
    0, 0, 0, 0, 0, 0, 0, 0]
  extraData := List.replicate 32 18
  stakeVersion := 19

/-- Witness for C4 at the concrete header `hdrKaw`. -/
theorem blockHeader_roundTrip_witness :
    readBlockHeader (writeBlockHeader hdrKaw) = some hdrKaw :=
  blockHeader_roundTrip hdrKaw (by decide)

/-! ## Byte offsets consumed by the KawPow hash engine -/

/-- Extraction of the "block height" performed by `KawPow.Hash`
(`kawpow.go`, `height := binary.LittleEndian.Uint32(headerBytes[152:156])`). -/
def kawpowHeaderHeight (b : List Nat) : Nat := leNat ((b.drop 152).take 4)

/-- Extraction of the "timestamp" performed by `KawPow.Hash`
(`kawpow.go`, `timestamp := binary.LittleEndian.Uint32(headerBytes[168:172])`). -/
def kawpowHeaderTimestamp (b : List Nat) : Nat := leNat ((b.drop 168).take 4)

/-- C1: the claim states that the byte offsets `KawPow.Hash` reads (height at
152..156, timestamp at 168..172) are exactly where `writeBlockHeader` encodes
the Height and Timestamp fields.  In fact the codec writes Height at offset
128 and Timestamp at offset 136, and offsets 152..156 and 168..172 fall inside
the serialized MixDigest field (offsets 148..180): on the concrete header
`hdrKaw` (Height 7, Timestamp 100) the hash engine extracts 17 and 42, the
values planted in the mix digest, while the codec-encoded Height and Timestamp
sit at offsets 128 and 136. -/
theorem kawpow_hash_offsets_mismatch_codec :
    kawpowHeaderHeight (writeBlockHeader hdrKaw) = 17 ∧
    hdrKaw.height = 7 ∧
    leNat (((writeBlockHeader hdrKaw).drop 128).take 4) = 7 ∧
    kawpowHeaderTimestamp (writeBlockHeader hdrKaw) = 42 ∧
    hdrKaw.timestamp = 100 ∧
    leNat (((writeBlockHeader hdrKaw).drop 136).take 4) = 100 ∧
    ((writeBlockHeader hdrKaw).drop 148).take 32 = hdrKaw.mixDigest := by
  decide

/-! ## RPC work-protocol serialization (`handleGetWork` KawPow path) -/

/-- Embedding of `serializeGetWorkDataKawPow` (rpcserver KawPow path): the
serialized header followed by 8 + 32 zero bytes of padding reserved for the
nonce and mix digest. -/
def serializeGetWorkDataKawPow (bh : BlockHeader) : List Nat :=
  writeBlockHeader bh ++ List.replicate (8 + 32) 0

/-- The nonce that `Server.CheckKawPoWProof` extracts: the 8 bytes starting
40 bytes from the end of the `serializeGetWorkDataKawPow` buffer. -/
def checkKawPowProofNonce (bh : BlockHeader) : Nat :=
  leNat (((serializeGetWorkDataKawPow bh).drop ((serializeGetWorkDataKawPow bh).length - 40)).take 8)

/-- The mix digest that `Server.CheckKawPoWProof` extracts: the final 32 bytes
of the `serializeGetWorkDataKawPow` buffer. -/
def checkKawPowProofMixDigest (bh : BlockHeader) : List Nat :=
  (serializeGetWorkDataKawPow bh).drop ((serializeGetWorkDataKawPow bh).length - 32)

theorem length_serializeGetWorkDataKawPow (bh : BlockHeader) (h : ValidHeader bh) :
    (serializeGetWorkDataKawPow bh).length = 256 := by
  simp [serializeGetWorkDataKawPow, length_writeBlockHeader bh h]

/-- C10: for every valid header, the trailing 40 bytes of the
`serializeGetWorkDataKawPow` buffer are the zero padding appended after the
216 serialized header bytes, so `CheckKawPoWProof` always extracts nonce 0 and
an all-zero mix digest, regardless of the Nonce and MixDigest header fields. -/
theorem checkKawPowProof_extracts_padding (bh : BlockHeader) (h : ValidHeader bh) :
    checkKawPowProofNonce bh = 0 ∧ checkKawPowProofMixDigest bh = List.replicate 32 0 := by
  have hlen := length_writeBlockHeader bh h
  have hslen := length_serializeGetWorkDataKawPow bh h
  constructor
  · unfold checkKawPowProofNonce
    rw [hslen]
    norm_num
    unfold serializeGetWorkDataKawPow
    rw [drop_append_len _ _ 216 hlen]
    decide
  · unfold checkKawPowProofMixDigest
    rw [hslen]
    norm_num
    unfold serializeGetWorkDataKawPow
    rw [show (224 : Nat) = 216 + 8 from rfl, drop_append_add _ _ 216 8 hlen]
    decide

/-- Witness for C10 at the concrete header `hdrKaw`, whose Nonce field is 999
and whose MixDigest field is nonzero: the extracted values are still 0 and the
zero digest. -/
theorem checkKawPowProof_extracts_padding_witness :
    checkKawPowProofNonce hdrKaw = 0 ∧ checkKawPowProofMixDigest hdrKaw = List.replicate 32 0 :=
  checkKawPowProof_extracts_padding hdrKaw (by decide)

/-! ## Proof verifier (`internal/blockchain/validate.go`) -/

/-- Modelled from the spec: the `standalone` compact-target expansion
(`CompactToBig`), absent from src.  The glossary describes compact bits as "a
floating-point-like compact encoding of a 256-bit difficulty target": the low
23 bits are the mantissa, bit 23 is the sign, and the top byte is a base-256
exponent positioning the mantissa. -/
def compactToTarget (bits : Nat) : Int :=
  let mantissa := bits % 0x800000
  let sign := bits / 0x800000 % 2
  let exponent := bits / 2 ^ 24
  let mag : Nat :=
    if exponent ≤ 3 then mantissa / 256 ^ (3 - exponent) else mantissa * 256 ^ (exponent - 3)
  if sign = 1 then -(mag : Int) else (mag : Int)

/-- Modelled from the spec: `standalone.CheckProofOfWork`, absent from src —
"compare as an unsigned big integer against the target derived by expanding
the header's compact bits field, and against the absolute network powLimit;
fail if the hash exceeds either bound." -/
def checkProofOfWorkRange (hashNum : Nat) (bits : Nat) (powLimit : Int) : Except String Unit :=
  let target := compactToTarget bits
  if target < (hashNum : Int) then Except.error "hash greater than target"
  else if powLimit < (hashNum : Int) then Except.error "hash greater than pow limit"
  else Except.ok ()

/-- Embedding of `checkProofOfWork` (`validate.go` lines 11-19): the V1
(legacy) proof-of-work hash is bound-checked first; only if that fails is the
V2 (KawPow) hash computed and bound-checked; a remaining failure is wrapped
into an `ErrInvalidPoW` rule error by `standaloneToChainRuleError`.  The two
hash values are parameters because their computation (`PowHashV1`,
`PowHashV2`) happens in the wire package. -/
def checkProofOfWork (powHashV1 powHashV2 : Nat) (bits : Nat) (powLimit : Int) :
    Except String Unit :=
  match checkProofOfWorkRange powHashV1 bits powLimit with
  | Except.ok _ => Except.ok ()
  | Except.error _ =>
    match checkProofOfWorkRange powHashV2 bits powLimit with
    | Except.ok _ => Except.ok ()
    | Except.error e => Except.error ("ErrInvalidPoW: " ++ e)

/-- The selection rule asserted by the claim (spec section 4.4): choose the
single applicable hash version according to the activation state of the
predecessor and bound-check only that hash. -/
def checkProofOfWorkByActivation (active : Bool) (powHashV1 powHashV2 : Nat) (bits : Nat)
    (powLimit : Int) : Except String Unit :=
  match checkProofOfWorkRange (if active then powHashV2 else powHashV1) bits powLimit with
  | Except.ok _ => Except.ok ()
  | Except.error e => Except.error ("ErrInvalidPoW: " ++ e)

/-- C3 counterexample: `checkProofOfWork` does not select a hash version by
activation state — it accepts whenever either hash satisfies the bounds.  With
compact bits `0x04000001` (target 256), pow limit 100000, a failing V1 hash
1000 and a passing V2 hash 1, the code accepts, while the claimed
activation-state selection (legacy hash applicable) rejects. -/
theorem checkProofOfWork_fallback_counterexample :
    checkProofOfWork 1000 1 0x04000001 100000 = Except.ok () ∧
    checkProofOfWorkByActivation false 1000 1 0x04000001 100000 ≠ Except.ok () := by
  decide

/-- C3 (amended): `checkProofOfWork` returns ok exactly when at least one of
the two proof-of-work hash versions — the legacy V1 hash, checked first, or
the KawPow V2 hash, checked as a fallback — is within both the target expanded
from the compact bits field and the network pow limit; it consults no
activation state, and any remaining failure is an InvalidPoW error. -/
theorem checkProofOfWork_accepts_either_version (h1 h2 bits : Nat) (powLimit : Int) :
    checkProofOfWork h1 h2 bits powLimit = Except.ok () ↔
      (checkProofOfWorkRange h1 bits powLimit = Except.ok () ∨
       checkProofOfWorkRange h2 bits powLimit = Except.ok ()) := by
  unfold checkProofOfWork
  rcases hA : checkProofOfWorkRange h1 bits powLimit with eA | uA <;>
    rcases hB : checkProofOfWorkRange h2 bits powLimit with eB | uB <;>
    simp [hA, hB]

/-! ## Mining work protocol: submission path (rpcserver KawPow) -/

inductive GetWorkResult where
  | rejected
  | success
deriving DecidableEq

inductive RpcErr where
  | decodeHex
  | internal (ctx : String)
deriving DecidableEq

/-- Outcomes of the three effectful calls that `handleGetWorkSubmissionKawPow`
makes besides header deserialization: the hex decoding of the payload
(`hex.DecodeString`), the KawPow proof check (`Server.CheckKawPoWProof`, whose
hash computation lives outside this file), and external block submission
(`SyncMgr.SubmitBlock`). -/
structure SubmissionEnv where
  hexDecode : Except Unit (List Nat)
  checkProof : BlockHeader → Except String Bool
  submitBlock : BlockHeader → Except String Unit

/-- Result of the handler together with whether the header was forwarded to
block submission. -/
structure SubmissionOutcome where
  result : Except RpcErr GetWorkResult
  forwarded : Bool
deriving DecidableEq

/-- Embedding of `Server.handleGetWorkSubmissionKawPow`: hex-decode the
payload (failure → decode-hex error), deserialize the header via the codec
(failure → internal error), run the proof check (error → internal error;
`false` → the "rejected" result without submission), and finally submit the
block (failure → internal error), returning success. -/
def handleGetWorkSubmissionKawPow (env : SubmissionEnv) : SubmissionOutcome :=
  match env.hexDecode with
  | Except.error _ => ⟨Except.error RpcErr.decodeHex, false⟩
  | Except.ok workBytes =>
    match readBlockHeader workBytes with
    | none => ⟨Except.error (RpcErr.internal "Failed to deserialize block header"), false⟩
    | some header =>
      match env.checkProof header with
      | Except.error _ => ⟨Except.error (RpcErr.internal "Failed to verify KawPoW proof"), false⟩
      | Except.ok false => ⟨Except.ok GetWorkResult.rejected, false⟩
      | Except.ok true =>
        match env.submitBlock header with
        | Except.error _ => ⟨Except.error (RpcErr.internal "Failed to submit block"), true⟩
        | Except.ok _ => ⟨Except.ok GetWorkResult.success, true⟩

/-- C8: a payload that decodes and deserializes but fails the proof check with
"insufficient work" yields the "rejected" result (not an error) and is not
forwarded to block submission; an undecodable or non-deserializable payload
yields an error and is not forwarded; a verified payload is forwarded to block
submission and yields success. -/
theorem getWorkSubmission_dispatch (env : SubmissionEnv) (bs : List Nat) (hdr : BlockHeader) :
    (env.hexDecode = Except.ok bs → readBlockHeader bs = some hdr →
      env.checkProof hdr = Except.ok false →
      handleGetWorkSubmissionKawPow env = ⟨Except.ok GetWorkResult.rejected, false⟩) ∧
    (env.hexDecode = Except.error () →
      handleGetWorkSubmissionKawPow env = ⟨Except.error RpcErr.decodeHex, false⟩) ∧
    (env.hexDecode = Except.ok bs → readBlockHeader bs = none →
      handleGetWorkSubmissionKawPow env =
        ⟨Except.error (RpcErr.internal "Failed to deserialize block header"), false⟩) ∧
    (env.hexDecode = Except.ok bs → readBlockHeader bs = some hdr →
      env.checkProof hdr = Except.ok true → env.submitBlock hdr = Except.ok () →
      handleGetWorkSubmissionKawPow env = ⟨Except.ok GetWorkResult.success, true⟩) := by
  refine ⟨?_, ?_, ?_, ?_⟩
  · intro h1 h2 h3
    simp [handleGetWorkSubmissionKawPow, h1, h2, h3]
  · intro h1
    simp [handleGetWorkSubmissionKawPow, h1]
  · intro h1 h2
    simp [handleGetWorkSubmissionKawPow, h1, h2]
  · intro h1 h2 h3 h4
    simp [handleGetWorkSubmissionKawPow, h1, h2, h3, h4]

/-- A concrete submission environment whose payload is the valid header
`hdrKaw` and whose proof check reports insufficient work. -/
def subEnvRejected : SubmissionEnv where
  hexDecode := Except.ok (writeBlockHeader hdrKaw)
  checkProof := fun _ => Except.ok false
  submitBlock := fun _ => Except.ok ()

set_option maxRecDepth 40000 in
/-- Witness for C8: on the concrete environment the handler returns the
"rejected" result and does not forward the header. -/
theorem getWorkSubmission_dispatch_witness :
    handleGetWorkSubmissionKawPow subEnvRejected = ⟨Except.ok GetWorkResult.rejected, false⟩ :=
  (getWorkSubmission_dispatch subEnvRejected (writeBlockHeader hdrKaw) hdrKaw).1 rfl (by decide) rfl

/-! ## Simplified Keccak (`kawpow.go` keccak256State) -/

/-- One iteration of the "simplified round function" in `keccak256State.Sum`
(`kawpow.go` lines 77-82): for every index `j` divisible by 8 the byte
`state[j]` is XORed with `state[j+1]`; all other bytes are untouched. -/
def simpleKeccakRound (st : List Nat) : List Nat :=
  (List.range 200).map fun j =>
    if j % 8 = 0 then st.getD j 0 ^^^ st.getD (j + 1) 0 else st.getD j 0

/-- Absorption of `keccak256State.Write` (`kawpow.go` lines 87-93): byte `i`
of the input is XORed into `state[i % 136]`. -/
def simpleKeccakWrite (st : List Nat) (p : List Nat) : List Nat :=
  p.enum.foldl (fun st ib => st.set (ib.1 % 136) (st.getD (ib.1 % 136) 0 ^^^ ib.2)) st

/-- Embedding of `keccak256State` `Write` followed by `Sum` (`kawpow.go`): XOR
the message into the zero state, apply the padding bytes at positions 136 and
199, run 24 iterations of the simplified round function, and return the first
32 state bytes. -/
def simpleKeccak256 (data : List Nat) : List Nat :=
  let st0 := List.replicate 200 0
  let st1 := simpleKeccakWrite st0 data
  let st2 := st1.set 136 (st1.getD 136 0 ^^^ 0x01)
  let st3 := st2.set 199 (st2.getD 199 0 ^^^ 0x80)
  let st4 := (List.range 24).foldl (fun st _ => simpleKeccakRound st) st3
  st4.take 32

/-! ## Full Keccak-f[1600] (second kawpow version, `keccakF1600`) -/

/-- Rotation offsets initialized in the `keccakF1600` `init` function. -/
def rhoOffsetList : List Nat :=
  [1, 3, 6, 10, 15, 21, 28, 36, 45, 55, 2, 14,
   27, 41, 56, 8, 25, 43, 62, 18, 39, 61, 20, 44]

/-- Round constants initialized in the `keccakF1600` `init` function. -/
def rcList : List Nat :=
  [0x0000000000000001, 0x0000000000008082, 0x800000000000808a,
   0x8000000080008000, 0x000000000000808b, 0x0000000080000001,
   0x8000000080008081, 0x8000000000008009, 0x000000000000008a,
   0x0000000000000088, 0x0000000080008009, 0x000000008000000a,
   0x000000008000808b, 0x800000000000008b, 0x8000000000008089,
   0x8000000000008003, 0x8000000000008002, 0x8000000000000080,
   0x000000000000800a, 0x800000008000000a, 0x8000000080008081,
   0x8000000000008080, 0x0000000080000001, 0x8000000080008008]

/-- The 64-bit left rotation `bits.RotateLeft64`. -/
def rotl64 (x n : Nat) : Nat := ((x <<< n) ||| (x >>> (64 - n))) % 2 ^ 64

/-- Theta step of `keccakF1600.permute`. -/
def thetaStep (a : List Nat) : List Nat :=
  let bc := fun x =>
    a.getD x 0 ^^^ a.getD (x + 5) 0 ^^^ a.getD (x + 10) 0 ^^^ a.getD (x + 15) 0 ^^^
      a.getD (x + 20) 0
  (List.range 25).map fun i =>
    a.getD i 0 ^^^ (bc ((i % 5 + 4) % 5) ^^^ rotl64 (bc ((i % 5 + 1) % 5)) 1)

/-- Rho and Pi steps of `keccakF1600.permute`: the sequential lane walk with
the simultaneous swap `t, a[x+5*y] = a[x+5*y], rotl64(t, rhoOffset[i])`. -/
def rhoPiStep (a : List Nat) : List Nat :=
  let fin := (List.range 24).foldl
    (fun st i =>
      let arr := st.1
      let t := st.2.1
      let x := st.2.2.1
      let y := st.2.2.2
      let x2 := y
      let y2 := (2 * x + 3 * y) % 5
      let idx := x2 + 5 * y2
      (arr.set idx (rotl64 t (rhoOffsetList.getD i 0)), arr.getD idx 0, x2, y2))
    (a, a.getD 1 0, 1, 0)
  fin.1

/-- Chi step of `keccakF1600.permute`; the Go bitwise complement `^bc` of a
`uint64` is the XOR with the all-ones 64-bit mask. -/
def chiStep (a : List Nat) : List Nat :=
  (List.range 25).map fun i =>
    let x := i % 5
    let y := i / 5
    let b := fun j => a.getD (j % 5 + 5 * y) 0
    b x ^^^ ((b (x + 1) ^^^ (2 ^ 64 - 1)) &&& b (x + 2))

/-- One round of `keccakF1600.permute`: theta, rho-pi, chi, then the iota
XOR of the round constant into lane 0. -/
def keccakRound (a : List Nat) (round : Nat) : List Nat :=
  let a3 := chiStep (rhoPiStep (thetaStep a))
  a3.set 0 (a3.getD 0 0 ^^^ rcList.getD round 0)

/-- The full 24-round Keccak-f[1600] permutation of `keccakF1600.permute`. -/
def keccakPermute (a : List Nat) : List Nat := (List.range 24).foldl keccakRound a

/-- Absorption of one `rate`-byte block (`keccakF1600.absorb`): XOR the block
into the first `rate / 8` lanes little-endian, then permute. -/
def absorbBlock (rate : Nat) (st : List Nat) (block : List Nat) : List Nat :=
  keccakPermute ((List.range 25).map fun i =>
    if i < rate / 8 then st.getD i 0 ^^^ leNat ((block.drop (8 * i)).take 8) else st.getD i 0)

/-- The squeeze loop of `keccakF1600.finalize`: lanes `0 ..< words` of the
state written little-endian. -/
def keccakSqueeze (st : List Nat) : Nat → List Nat
  | 0 => []
  | w + 1 => keccakSqueeze st w ++ leBytes 8 (st.getD w 0)

/-- Embedding of a single-message `Write` + `Sum` of the `keccakF1600` sponge:
full `rate`-byte blocks are absorbed as they arrive; `finalize` then appends
the `0x01` pad byte, zero-fills the block to `rate` bytes, absorbs it, and
squeezes the first `hashSize` bytes of the state.  (When the message length is
an exact multiple of the rate the final absorbed block is the bare pad.) -/
def keccakDigest (rate hashSize : Nat) (data : List Nat) : List Nat :=
  let nFull := data.length / rate
  let st := (List.range nFull).foldl
    (fun st i => absorbBlock rate st ((data.drop (i * rate)).take rate)) (List.replicate 25 0)
  let lastBlock := data.drop (nFull * rate) ++ 0x01 :: List.replicate (rate - data.length % rate - 1) 0
  let st2 := absorbBlock rate st lastBlock
  keccakSqueeze st2 (hashSize / 8)

/-- The `NewKeccak256` instance of the full permutation sponge (rate 136,
32-byte output). -/
def keccak256Full (data : List Nat) : List Nat := keccakDigest 136 32 data

/-- The `NewKeccak512` instance of the full permutation sponge (rate 72,
64-byte output). -/
def keccak512Full (data : List Nat) : List Nat := keccakDigest 72 64 data

theorem length_keccakSqueeze (st : List Nat) (w : Nat) :
    (keccakSqueeze st w).length = 8 * w := by
  induction w with
  | zero => rfl
  | succ w ih => simp [keccakSqueeze, ih, length_leBytes]; omega

theorem length_keccakDigest (rate hashSize : Nat) (data : List Nat) :
    (keccakDigest rate hashSize data).length = 8 * (hashSize / 8) := by
  simp [keccakDigest, length_keccakSqueeze]

theorem length_keccak256Full (data : List Nat) : (keccak256Full data).length = 32 := by
  simp [keccak256Full, length_keccakDigest]

set_option maxRecDepth 100000 in
/-- C9: the two Keccak implementations of the hash engine are not equivalent.
On the 32-zero-byte input (the seed preimage for epoch 0, timestamp 0) the
simplified `keccak256State` round function — whose 24 identical XOR rounds
cancel pairwise — returns the input-plus-padding bytes, i.e. 32 zero bytes,
while the full 24-round `keccakF1600` permutation returns a different
digest. -/
theorem keccak_implementations_differ :
    simpleKeccak256 (List.replicate 32 0) ≠ keccak256Full (List.replicate 32 0) := by
  decide

/-! ## KawPow hash engine (second kawpow version) -/

/-- Number of blocks per KawPow epoch (`KawPowEpochLength`). -/
def kawPowEpochLength : Nat := 7500

/-- Cache size in bytes (`cacheSize`, second kawpow version: 16 MiB). -/
def kpCacheSize : Nat := 16 * 1024 * 1024

/-- Dataset size in bytes (`datasetSize`, second kawpow version: 2 GiB). -/
def kpDatasetSize : Nat := 2 * 1024 * 1024 * 1024

/-- Number of cache generation rounds (`cacheRounds`). -/
def kpCacheRounds : Nat := 3

/-- The Fowler-Noll-Vo combine `fnv(a, b) = (a * 0x01000193) ^ b` on
`uint32`. -/
def fnv (a b : Nat) : Nat := ((a * 0x01000193) % 2 ^ 32) ^^^ b

/-- Modelled from the spec: `chainhash.HashH`, the 32-byte chain hash function
from the `chaincfg/chainhash` module of this repository, which is absent from
src.  The spec calls the seed hash "a cryptographic hash (Keccak-256 class) of
an epoch/time-derived 32-byte preimage", so the chain hash is modelled as the
Keccak-256 of its input. -/
def chainhashHashH (b : List Nat) : List Nat := keccak256Full b

/-- Embedding of `CalcSeedHash` (second kawpow version): the 32-byte preimage
holds the epoch number and the timestamp little-endian in its first 16 bytes;
it is hashed with the (full) Keccak-256 and then with the chain hash. -/
def calcSeedHash (height timestamp : Nat) : List Nat :=
  let epoch := height / kawPowEpochLength
  let seed := leBytes 8 epoch ++ leBytes 8 timestamp ++ List.replicate 16 0
  chainhashHashH (keccak256Full seed)

/-- Embedding of `KawPow.generateCache` (second kawpow version): a
`cacheSize/4`-entry zero table whose first entries are filled from iterated
Keccak-512 hashes of the seed, `cacheRounds` rounds in total.  (The loop
guards `i < len(hash)/4 && idx < len(cache)` stop writing once the index runs
past the cache, which the per-index bound checks below reproduce.) -/
def kpGenerateCache (seed : List Nat) : List Nat :=
  let size := kpCacheSize / 4
  let cache0 := List.replicate size 0
  let hash0 := keccak512Full (seed.take 32)
  let cache1 := (List.range (hash0.length / 4)).foldl
    (fun c i => if i < c.length then c.set i (leNat ((hash0.drop (i * 4)).take 4)) else c) cache0
  let fin := (List.range (kpCacheRounds - 1)).foldl
    (fun st r =>
      let i := r + 1
      let h2 := keccak512Full st.2
      let c2 := (List.range (h2.length / 4)).foldl
        (fun c j =>
          if i * (h2.length / 4) + j < c.length then
            c.set (i * (h2.length / 4) + j) (leNat ((h2.drop (j * 4)).take 4))
          else c) st.1
      (c2, h2))
    (cache1, hash0)
  fin.1

/-- Embedding of `KawPow.generateDataset` (second kawpow version): every
dataset entry is `cache[i % len(cache)] ^ i`, and while `i` is still inside
the cache the cache entry `i` is replaced by a multiplied-and-shifted mix of
the new value (all in `uint64`, truncated to `uint32` on store). -/
def kpGenerateDataset (cache : List Nat) : List Nat :=
  let size := kpDatasetSize / 8
  let fin := (List.range size).foldl
    (fun st i =>
      let parent := st.1.getD (i % st.1.length) 0
      let newValue := parent ^^^ i
      let cache2 :=
        if i < st.1.length then
          st.1.set i ((((newValue * 0x5bd1e995) % 2 ^ 64) ^^^ (newValue >>> 31)) % 2 ^ 32)
        else st.1
      (cache2, st.2 ++ [newValue]))
    (cache, [])
  fin.2

/-- Ascending little-endian serialization of the first `n` 32-bit words of a
buffer, as the `PutUint32` loops of `hashimoto` produce. -/
def mixWords32 (buf : List Nat) : Nat → List Nat
  | 0 => []
  | w + 1 => mixWords32 buf w ++ leBytes 4 (buf.getD w 0)

theorem length_mixWords32 (buf : List Nat) (n : Nat) : (mixWords32 buf n).length = 4 * n := by
  induction n with
  | zero => rfl
  | succ n ih => simp [mixWords32, ih, length_leBytes]; omega

/-- The 64-round mixing loop of `KawPow.hashimoto` (second kawpow version):
the 1024-word mix buffer is seeded from the Keccak-512 of header-hash‖nonce
(first 16 words; the rest zero); each round selects a parent index with an
FNV combine modulo `uint32(words)`, gathers 64 bytes of dataset words
(out-of-range reads yield zero), and FNV-combines them into the first 16
buffer words. -/
def kawpowMixBuffer (dataset headerHash : List Nat) (nonce dsize : Nat) : List Nat :=
  let headerNonce := headerHash ++ leBytes 8 nonce
  let mix := keccak512Full headerNonce
  let words := dsize / 32
  let mixWords := 1024
  let mixBuffer0 := (List.range mixWords).map fun i =>
    if i * 4 + 4 ≤ mix.length then leNat ((mix.drop (i * 4)).take 4) else 0
  (List.range 64).foldl
    (fun mb i =>
      let parent := fnv (i ^^^ mb.getD (i % mixWords) 0) (mb.getD ((i + 1) % mixWords) 0) %
        (words % 2 ^ 32)
      let parentData := (List.range 16).foldr
        (fun j acc =>
          leBytes 4
            (if parent * 16 + j < dataset.length then dataset.getD (parent * 16 + j) 0 % 2 ^ 32
             else 0) ++ acc) []
      (List.range mixWords).map fun j =>
        if j * 4 + 4 ≤ parentData.length then fnv (mb.getD j 0) (leNat ((parentData.drop (j * 4)).take 4))
        else mb.getD j 0)
    mixBuffer0

/-- The value computed by `KawPow.hashimoto` after its argument checks: the
compressed 32-byte mix (first 8 buffer words) and the final Keccak-256 of
header-hash‖compressed-mix‖nonce. -/
def hashimotoCore (dataset headerHash : List Nat) (nonce dsize : Nat) : List Nat × List Nat :=
  let compressedMix := mixWords32 (kawpowMixBuffer dataset headerHash nonce dsize) 8
  let hashInput := headerHash ++ compressedMix ++ leBytes 8 nonce
  (compressedMix, keccak256Full hashInput)

/-- Embedding of `KawPow.hashimoto` (second kawpow version) with its failure
modes: the function panics when the header hash is not 32 bytes or the dataset
size is zero or not a multiple of 128, and its first mixing round divides by
`uint32(words)`, panicking when that truncation is zero; panics are modelled
as `none`. -/
def hashimoto (dataset headerHash : List Nat) (nonce dsize : Nat) :
    Option (List Nat × List Nat) :=
  if headerHash.length ≠ 32 then none
  else if dsize = 0 ∨ dsize % 128 ≠ 0 then none
  else if dsize / 32 % 2 ^ 32 = 0 then none
  else some (hashimotoCore dataset headerHash nonce dsize)

/-- The mix digest `KawPow.Hash` computes on its success path. -/
def kawpowMix (dataset headerBytes : List Nat) (nonce : Nat) : List Nat :=
  (hashimotoCore dataset (keccak256Full headerBytes) nonce (dataset.length * 8)).1

/-- The final hash `KawPow.Hash` computes on its success path. -/
def kawpowFinal (dataset headerBytes : List Nat) (nonce : Nat) : List Nat :=
  (hashimotoCore dataset (keccak256Full headerBytes) nonce (dataset.length * 8)).2

/-- Embedding of `KawPow.Hash` (second kawpow version).  The hasher state is
its dataset (`k.dataset`); a nil dataset is regenerated from the cache derived
from the seed hash.  The function extracts the height and timestamp from the
fixed offsets 152 and 168, computes the seed hash and cache (unused once a
dataset exists), Keccak-256-hashes the whole header bytes, and runs
`hashimoto`; error returns of the Go code are `Except.error`. -/
def kawpowHash (dataset headerBytes : List Nat) (nonce : Nat) :
    Except String (List Nat × List Nat) :=
  if headerBytes.length < 172 then Except.error "header too short"
  else
    let height := kawpowHeaderHeight headerBytes
    let timestamp := kawpowHeaderTimestamp headerBytes
    let seedHash := calcSeedHash height timestamp
    let cache := kpGenerateCache seedHash
    let dataset2 := if dataset.isEmpty then kpGenerateDataset cache else dataset
    if dataset2.length = 0 then Except.error "empty dataset generated"
    else
      match hashimoto dataset2 (keccak256Full headerBytes) nonce (dataset2.length * 8) with
      | none => Except.error "hashimoto argument panic"
      | some (mixHash, result) =>
        if mixHash.length = 0 ∨ result.length = 0 then
          Except.error "empty hash result from hashimoto"
        else Except.ok (mixHash, result)

/-- Embedding of `KawPow.Verify` (second kawpow version): recompute both
outputs with `KawPow.Hash` and compare byte-for-byte against the supplied mix
digest and final hash. -/
def kawpowVerify (dataset headerBytes : List Nat) (nonce : Nat) (mixDigest hash : List Nat) :
    Except String Bool :=
  match kawpowHash dataset headerBytes nonce with
  | Except.error e => Except.error e
  | Except.ok (computedMix, computedHash) =>
    if computedMix ≠ mixDigest then Except.ok false
    else if computedHash ≠ hash then Except.ok false
    else Except.ok true

theorem length_hashimotoCore_fst (dataset headerHash : List Nat) (nonce dsize : Nat) :
    (hashimotoCore dataset headerHash nonce dsize).1.length = 32 := by
  simp [hashimotoCore, length_mixWords32]

theorem length_hashimotoCore_snd (dataset headerHash : List Nat) (nonce dsize : Nat) :
    (hashimotoCore dataset headerHash nonce dsize).2.length = 32 := by
  simp [hashimotoCore, length_keccak256Full]

theorem kawpowHash_eq (dataset headerBytes : List Nat) (nonce : Nat)
    (hlen : 172 ≤ headerBytes.length) (hd : dataset ≠ [])
    (hmod : dataset.length * 8 % 128 = 0)
    (hwords : dataset.length * 8 / 32 % 2 ^ 32 ≠ 0) :
    kawpowHash dataset headerBytes nonce =
      Except.ok (kawpowMix dataset headerBytes nonce, kawpowFinal dataset headerBytes nonce) := by
  have hne : dataset.isEmpty = false := by
    cases dataset with
    | nil => exact absurd rfl hd
    | cons a l => rfl
  have hlen0 : ¬dataset.length = 0 := by
    simp [List.length_eq_zero]
    exact hd
  have hsz0 : ¬(dataset.length * 8 = 0 ∨ ¬dataset.length * 8 % 128 = 0) := by
    push_neg
    exact ⟨by omega, hmod⟩
  have h1 := length_hashimotoCore_fst dataset (keccak256Full headerBytes) nonce (dataset.length * 8)
  have h2 := length_hashimotoCore_snd dataset (keccak256Full headerBytes) nonce (dataset.length * 8)
  have hmatch : hashimoto dataset (keccak256Full headerBytes) nonce (dataset.length * 8) =
      some (kawpowMix dataset headerBytes nonce, kawpowFinal dataset headerBytes nonce) := by
    unfold hashimoto
    rw [if_neg (by simp [length_keccak256Full]), if_neg hsz0, if_neg hwords]
    rfl
  unfold kawpowHash
  rw [if_neg (by omega)]
  simp only [hne, Bool.false_eq_true, if_false, hlen0]
  rw [hmatch]
  show (if (kawpowMix dataset headerBytes nonce).length = 0 ∨
      (kawpowFinal dataset headerBytes nonce).length = 0 then
    (Except.error "empty hash result from hashimoto" : Except String (List Nat × List Nat))
  else Except.ok (kawpowMix dataset headerBytes nonce, kawpowFinal dataset headerBytes nonce)) =
    Except.ok (kawpowMix dataset headerBytes nonce, kawpowFinal dataset headerBytes nonce)
  rw [if_neg (by
    simp [show (kawpowMix dataset headerBytes nonce).length = 32 from h1,
      show (kawpowFinal dataset headerBytes nonce).length = 32 from h2])]

theorem kawpowVerify_of_hash (dataset headerBytes : List Nat) (nonce : Nat)
    (a b m f : List Nat)
    (He : kawpowHash dataset headerBytes nonce = Except.ok (a, b)) :
    kawpowVerify dataset headerBytes nonce m f =
      if a = m then (if b = f then Except.ok true else Except.ok false) else Except.ok false := by
  unfold kawpowVerify
  rw [He]
  show (if a ≠ m then (Except.ok false : Except String Bool)
    else if b ≠ f then Except.ok false else Except.ok true) = _
  rcases eq_or_ne a m with h | h
  · rcases eq_or_ne b f with h2 | h2 <;> simp [h, h2]
  · simp [h]

theorem xor_ne_of_ne_zero (a b : Nat) (hb : b ≠ 0) : a ^^^ b ≠ a := by
  intro h
  apply hb
  have h2 : a ^^^ (a ^^^ b) = a ^^^ a := by rw [h]
  rwa [← Nat.xor_assoc, Nat.xor_self, Nat.zero_xor] at h2

/-- Flip of bit `i` (counting 8 bits per byte, least-significant first) of a
byte string. -/
def flipBit (l : List Nat) (i : Nat) : List Nat :=
  l.set (i / 8) (l.getD (i / 8) 0 ^^^ 1 <<< (i % 8))

theorem flipBit_ne (l : List Nat) (i : Nat) (h : i / 8 < l.length) : flipBit l i ≠ l := by
  intro he
  have hb : (1 : Nat) <<< (i % 8) ≠ 0 := by
    rw [Nat.shiftLeft_eq, one_mul]
    exact (pow_pos (by norm_num : (0 : Nat) < 2) _).ne'
  have hs2 : i / 8 < (l.set (i / 8) (l.getD (i / 8) 0 ^^^ 1 <<< (i % 8))).length := by
    simpa using h
  have h2 : (flipBit l i).getD (i / 8) 0 = l.getD (i / 8) 0 ^^^ 1 <<< (i % 8) := by
    unfold flipBit
    rw [List.getD_eq_getElem _ 0 hs2]
    exact List.getElem_set_self hs2
  have h4 : (flipBit l i).getD (i / 8) 0 = l.getD (i / 8) 0 := by rw [he]
  rw [h2] at h4
  exact xor_ne_of_ne_zero _ _ hb h4

/-- C2: for every header byte string accepted by the hash engine (at least 172
bytes) and every nonce, with any well-formed dataset state (nonempty, size a
multiple of 128 bytes whose 32-byte-word count does not truncate to zero in
`uint32`), `Verify` returns true exactly on the mix digest and final hash that
`Hash` produced for the same inputs: it accepts the computed pair, rejects any
other mix digest or final hash, and in particular rejects every single-bit
flip of either output. -/
theorem kawpow_verify_consistency (dataset headerBytes : List Nat) (nonce : Nat)
    (hlen : 172 ≤ headerBytes.length) (hd : dataset ≠ [])
    (hmod : dataset.length * 8 % 128 = 0)
    (hwords : dataset.length * 8 / 32 % 2 ^ 32 ≠ 0) :
    kawpowVerify dataset headerBytes nonce (kawpowMix dataset headerBytes nonce)
        (kawpowFinal dataset headerBytes nonce) = Except.ok true ∧
    (∀ m, m ≠ kawpowMix dataset headerBytes nonce →
      kawpowVerify dataset headerBytes nonce m (kawpowFinal dataset headerBytes nonce) =
        Except.ok false) ∧
    (∀ f, f ≠ kawpowFinal dataset headerBytes nonce →
      kawpowVerify dataset headerBytes nonce (kawpowMix dataset headerBytes nonce) f =
        Except.ok false) ∧
    (∀ i, i < 256 →
      kawpowVerify dataset headerBytes nonce (flipBit (kawpowMix dataset headerBytes nonce) i)
          (kawpowFinal dataset headerBytes nonce) = Except.ok false ∧
      kawpowVerify dataset headerBytes nonce (kawpowMix dataset headerBytes nonce)
          (flipBit (kawpowFinal dataset headerBytes nonce) i) = Except.ok false) := by
  have He := kawpowHash_eq dataset headerBytes nonce hlen hd hmod hwords
  have hmixlen : (kawpowMix dataset headerBytes nonce).length = 32 :=
    length_hashimotoCore_fst dataset (keccak256Full headerBytes) nonce (dataset.length * 8)
  have hfinlen : (kawpowFinal dataset headerBytes nonce).length = 32 :=
    length_hashimotoCore_snd dataset (keccak256Full headerBytes) nonce (dataset.length * 8)
  refine ⟨?_, ?_, ?_, ?_⟩
  · rw [kawpowVerify_of_hash dataset headerBytes nonce _ _ _ _ He]
    simp
  · intro m hm
    rw [kawpowVerify_of_hash dataset headerBytes nonce _ _ _ _ He]
    rw [if_neg (fun hc => hm hc.symm)]
  · intro f hf
    rw [kawpowVerify_of_hash dataset headerBytes nonce _ _ _ _ He]
    rw [if_pos rfl, if_neg (fun hc => hf hc.symm)]
  · intro i hi
    have hm : flipBit (kawpowMix dataset headerBytes nonce) i ≠
        kawpowMix dataset headerBytes nonce := flipBit_ne _ i (by omega)
    have hf : flipBit (kawpowFinal dataset headerBytes nonce) i ≠
        kawpowFinal dataset headerBytes nonce := flipBit_ne _ i (by omega)
    constructor
    · rw [kawpowVerify_of_hash dataset headerBytes nonce _ _ _ _ He]
      rw [if_neg (fun hc => hm hc.symm)]
    · rw [kawpowVerify_of_hash dataset headerBytes nonce _ _ _ _ He]
      rw [if_pos rfl, if_neg (fun hc => hf hc.symm)]

/-- A concrete 16-entry dataset state (128 bytes, the minimum well-formed
size). -/
def smallDataset : List Nat := List.replicate 16 5

/-- A concrete 172-byte header input. -/
def smallHeader : List Nat := List.replicate 172 0

set_option maxRecDepth 100000 in
/-- Witness for C2 at a concrete dataset, header and nonce. -/
theorem kawpow_verify_consistency_witness :
    kawpowVerify smallDataset smallHeader 7 (kawpowMix smallDataset smallHeader 7)
      (kawpowFinal smallDataset smallHeader 7) = Except.ok true :=
  (kawpow_verify_consistency smallDataset smallHeader 7 (by decide) (by decide) (by decide)
    (by decide)).1

/-! ## Difficulty retargeting (`internal/blockchain/difficulty.go`) -/

/-- The chain-parameter fields consumed by the embedded difficulty functions
(`chaincfg.Params`; the subsidy fields and `BlockOneSubsidy()` belong to the
chaincfg module, absent from src, and are carried here as the values the
estimator reads). -/
structure ChainParams where
  workDiffAlpha : Int
  workDiffWindowSize : Int
  workDiffWindows : Int
  targetTimespanSecs : Int
  retargetAdjustmentFactor : Int
  powLimit : Int
  stakeDiffWindowSize : Int
  coinbaseMaturity : Int
  minimumStakeDiff : Int
  ticketMaturity : Int
  ticketsPerBlock : Int
  ticketPoolSize : Int
  blockOneSubsidy : Int
  baseSubsidy : Int
  mulSubsidy : Int
  divSubsidy : Int
  subsidyReductionInterval : Int
deriving DecidableEq

/-- Per-node fields of the ancestor-chain view (`blockNode`). -/
structure NodeData where
  height : Int
  bits : Nat
  sbits : Int
  poolSize : Nat
  freshStake : Nat
  timestamp : Int
deriving DecidableEq

/-- The ancestor chain: every node carries its data and, unless it is the
genesis node, a parent (`blockNode`, whose type lives outside src; the spec
describes it as a singly-linked parent chain with height decreasing by one per
step). -/
inductive BlockNode where
  | genesis (data : NodeData)
  | node (data : NodeData) (parent : BlockNode)

def BlockNode.data : BlockNode → NodeData
  | .genesis d => d
  | .node d _ => d

def BlockNode.parent : BlockNode → Option BlockNode
  | .genesis _ => none
  | .node _ p => some p

def BlockNode.height (n : BlockNode) : Int := n.data.height

def BlockNode.bits (n : BlockNode) : Nat := n.data.bits

def BlockNode.sbits (n : BlockNode) : Int := n.data.sbits

def BlockNode.poolSize (n : BlockNode) : Nat := n.data.poolSize

def BlockNode.freshStake (n : BlockNode) : Nat := n.data.freshStake

def BlockNode.timestamp (n : BlockNode) : Int := n.data.timestamp

/-- Modelled from the spec: `blockNode.Ancestor` (absent from src; section 9
describes the ancestor chain as a parent-linked list walked backward): return
the ancestor at exactly the requested height, or none when the height is
negative, above the node, or missing from the chain. -/
def BlockNode.ancestor : BlockNode → Int → Option BlockNode
  | .genesis d, h =>
    if h < 0 ∨ d.height < h then none
    else if d.height = h then some (.genesis d)
    else none
  | .node d par, h =>
    if h < 0 ∨ d.height < h then none
    else if d.height = h then some (.node d par)
    else par.ancestor h

/-- The walk of `BlockChain.sumPurchasedTickets` from a non-nil start node:
add the fresh-stake count of up to `numToSum` consecutive nodes, stopping at
the genesis end of the chain. -/
def BlockNode.sumPurchased : BlockNode → Int → Int
  | .genesis d, numToSum => if numToSum ≤ 0 then 0 else (d.freshStake : Int)
  | .node d par, numToSum =>
    if numToSum ≤ 0 then 0 else (d.freshStake : Int) + par.sumPurchased (numToSum - 1)

/-- Embedding of `BlockChain.sumPurchasedTickets` (difficulty.go lines
707-717): sum the fresh-stake counts of the most recent `numToSum` blocks from
the given start node, zero when the start node is nil. -/
def sumPurchasedTickets : Option BlockNode → Int → Int
  | none, _ => 0
  | some n, numToSum => n.sumPurchased numToSum

/-- Conversion of an integer to the `int64` value with the same low 64 bits:
the two's-complement wraparound that Go `int64` arithmetic applies to every
arithmetic result, and equally the conversion a `big.Int` undergoes through
`Int64()`. -/
def toInt64 (n : Int) : Int := (n + 2 ^ 63) % 2 ^ 64 - 2 ^ 63

theorem toInt64_eq_self (n : Int) (h1 : -(2 ^ 63) ≤ n) (h2 : n < 2 ^ 63) : toInt64 n = n := by
  unfold toInt64
  omega

/-- The `subsidy` accumulator of `estimateSupply` after `k` reduction
intervals: `subsidy *= MulSubsidy; subsidy /= DivSubsidy` once per elapsed
interval, in Go `int64` arithmetic — the multiplication wraps on overflow and
the truncating division wraps in its single overflow case
(`MinInt64 / -1`). -/
def subsidyAt (p : ChainParams) : Nat → Int
  | 0 => p.baseSubsidy
  | k + 1 => toInt64 ((toInt64 (subsidyAt p k * p.mulSubsidy)).tdiv p.divSubsidy)

/-- The `supply` accumulator of `estimateSupply` after `k` iterations of its
reduction loop: `supply += SubsidyReductionInterval * subsidy` in Go `int64`
arithmetic (both the product and the sum wrap on overflow), starting from the
block-one subsidy. -/
def supplyAfter (p : ChainParams) : Nat → Int
  | 0 => p.blockOneSubsidy
  | k + 1 => toInt64 (supplyAfter p k + toInt64 (p.subsidyReductionInterval * subsidyAt p k))

/-- Proof auxiliary: the exact (unwrapped) sum of the first `k` interval
subsidies. -/
def subsidySum (p : ChainParams) : Nat → Int
  | 0 => 0
  | k + 1 => subsidySum p k + subsidyAt p k

/-- Embedding of `estimateSupply` (difficulty.go lines 676-702): zero at
non-positive heights; otherwise the block-one subsidy, plus the full subsidy
of every elapsed reduction interval (the loop `supplyAfter`), plus the
partial-interval subsidy `(1 + height % interval) * subsidy`, minus twice the
base subsidy to account for the special subsidies of blocks 0 and 1 — all in
Go `int64` arithmetic, so every product, sum and difference wraps on
overflow. -/
def estimateSupply (p : ChainParams) (height : Int) : Int :=
  if height ≤ 0 then 0
  else
    let reductions := height.tdiv p.subsidyReductionInterval
    let supply := supplyAfter p reductions.toNat
    let supply2 := toInt64 (supply +
      toInt64 ((1 + height.tmod p.subsidyReductionInterval) * subsidyAt p reductions.toNat))
    toInt64 (supply2 - toInt64 (p.baseSubsidy * 2))

/-- Embedding of `calcNextStakeDiffV2` (difficulty.go lines 730-794): the
DCP0001 closed form `curDiff * curPoolSizeAll^2 / (prevPoolSizeAll *
targetPoolSizeAll)` computed with big-integer arithmetic (two sequential
Euclidean divisions), truncated to `int64`, then capped above by
`estimateSupply(nextHeight) / TicketPoolSize` and raised to at least
`MinimumStakeDiff`. -/
def calcNextStakeDiffV2 (p : ChainParams) (nextHeight curDiff prevPoolSizeAll curPoolSizeAll : Int) :
    Int :=
  let votesPerBlock := p.ticketsPerBlock
  let ticketPoolSize := p.ticketPoolSize
  let ticketMaturity := p.ticketMaturity
  let targetPoolSizeAll := votesPerBlock * (ticketPoolSize + ticketMaturity)
  let nextDiffBig := curDiff * curPoolSizeAll * curPoolSizeAll / prevPoolSizeAll / targetPoolSizeAll
  let nextDiff := toInt64 nextDiffBig
  let estimatedSupply := estimateSupply p nextHeight
  let maximumStakeDiff := estimatedSupply.tdiv ticketPoolSize
  let nextDiff2 := if nextDiff > maximumStakeDiff then maximumStakeDiff else nextDiff
  if nextDiff2 < p.minimumStakeDiff then p.minimumStakeDiff else nextDiff2

/-- The previous retarget interval's pool size plus immature tickets, as
gathered by `calcNextRequiredStakeDifficultyV2`: the pool size of the ancestor
at height `nextHeight - intervalSize - 1` (zero when absent) plus the tickets
purchased in the `TicketMaturity` blocks ending there. -/
def stakeV2PrevPoolSizeAll (p : ChainParams) (n : BlockNode) : Int :=
  let prevRetargetHeight := n.height + 1 - p.stakeDiffWindowSize - 1
  let prevRetargetNode := n.ancestor prevRetargetHeight
  let prevPoolSize : Int :=
    match prevRetargetNode with
    | some m => (m.poolSize : Int)
    | none => 0
  prevPoolSize + sumPurchasedTickets prevRetargetNode p.ticketMaturity

/-- The current pool size plus immature tickets, as gathered by
`calcNextRequiredStakeDifficultyV2`. -/
def stakeV2CurPoolSizeAll (p : ChainParams) (n : BlockNode) : Int :=
  (n.poolSize : Int) + sumPurchasedTickets (some n) p.ticketMaturity

/-- Embedding of `calcNextRequiredStakeDifficultyV2` (difficulty.go lines
801-853): minimum difficulty below the stake start height
(`CoinbaseMaturity + 1`); unchanged previous difficulty off the retarget
boundary; unchanged previous difficulty while the previous interval's pool was
empty; otherwise the DCP0001 closed form.  The `none` result models the nil
dereference the Go code would perform when called with a nil node at or above
the start height. -/
def calcNextRequiredStakeDifficultyV2 (p : ChainParams) (curNode : Option BlockNode) :
    Option Int :=
  let nextHeight : Int :=
    match curNode with
    | none => 0
    | some n => n.height + 1
  let stakeDiffStartHeight := p.coinbaseMaturity + 1
  if nextHeight < stakeDiffStartHeight then some p.minimumStakeDiff
  else
    match curNode with
    | none => none
    | some n =>
      let intervalSize := p.stakeDiffWindowSize
      let curDiff := n.sbits
      if (n.height + 1).tmod intervalSize ≠ 0 then some curDiff
      else
        let prevPoolSizeAll := stakeV2PrevPoolSizeAll p n
        if prevPoolSizeAll = 0 then some curDiff
        else some (calcNextStakeDiffV2 p (n.height + 1) curDiff prevPoolSizeAll
          (stakeV2CurPoolSizeAll p n))

/-- Modelled from the spec: `standalone.BigToCompact` (absent from src), the
inverse of the compact expansion described in the glossary: the magnitude is
normalized to a 23-bit mantissa with a base-256 exponent, shifting one byte
when the mantissa sign bit would be set, and the sign lands in bit 23. -/
def bigToCompact (n : Int) : Nat :=
  if n = 0 then 0
  else
    let mag := n.natAbs
    let exponent := Nat.log2 mag / 8 + 1
    let mantissa :=
      if exponent ≤ 3 then mag <<< (8 * (3 - exponent)) else mag >>> (8 * (exponent - 3))
    let mantissa2 := if mantissa &&& 0x800000 ≠ 0 then mantissa >>> 8 else mantissa
    let exponent2 := if mantissa &&& 0x800000 ≠ 0 then exponent + 1 else exponent
    let compact := (exponent2 <<< 24) ||| mantissa2
    if n < 0 then compact ||| 0x800000 else compact

/-- One iteration of the window-walk loop of `calcNextBlake256Diff`: the state
carries the walking node, the most recent boundary timestamp, the window
period index, the summed weights (a `uint64`), and the recorded per-window
fixed-point ratios. -/
def blake256WindowStep (p : ChainParams) (nodesToTraverse : Int)
    (st : BlockNode × Int × Int × Nat × List Int) (i : Nat) :
    BlockNode × Int × Int × Nat × List Int :=
  let (oldNode, recentTime, windowPeriod, weights, changes) := st
  let st2 :=
    if (i : Int).tmod p.workDiffWindowSize = 0 ∧ i ≠ 0 then
      let olderTime := oldNode.timestamp
      let timeDifference :=
        if oldNode.height = 0 then p.targetTimespanSecs else recentTime - olderTime
      let windowAdjusted := timeDifference * 2 ^ 32 / p.targetTimespanSecs
      let shift := ((p.workDiffWindows - windowPeriod) * p.workDiffAlpha).toNat
      let windowAdjusted2 := windowAdjusted * 2 ^ shift
      let weights2 := (weights + 2 ^ shift) % 2 ^ 64
      (oldNode, olderTime, windowPeriod + 1, weights2, changes ++ [windowAdjusted2])
    else st
  if (i : Int) = nodesToTraverse then st2
  else
    let (oldNode2, recentTime2, wp2, w2, ch2) := st2
    (match oldNode2.parent with
     | some par => par
     | none => oldNode2, recentTime2, wp2, w2, ch2)

/-- Embedding of `calcNextBlake256Diff` (difficulty.go lines 51-212): off a
retarget boundary the previous compact bits are returned unchanged; on a
boundary the exponentially weighted window ratios are accumulated over
`WorkDiffWindowSize * WorkDiffWindows` ancestors, merged into the previous
difficulty in 64.32 fixed point, clamped to the retarget factor range and the
network pow limit, and re-encoded to compact form.  (The degenerate
configurations on which the Go code would panic — zero window size or zero
accumulated weights — are mapped to total values here and are outside every
theorem below.) -/
def calcNextBlake256Diff (p : ChainParams) (prevNode : BlockNode) (newBlockTime : Int) : Nat :=
  let oldDiff := prevNode.bits
  let oldDiffBig := compactToTarget prevNode.bits
  let nextHeight := prevNode.height + 1
  if (prevNode.height + 1).tmod p.workDiffWindowSize ≠ 0 then oldDiff
  else
    let nextDiffBigMin := compactToTarget prevNode.bits / p.retargetAdjustmentFactor
    let nextDiffBigMax := compactToTarget prevNode.bits * p.retargetAdjustmentFactor
    let nodesToTraverse := p.workDiffWindowSize * p.workDiffWindows
    let fin := (List.range (nodesToTraverse.toNat + 1)).foldl
      (blake256WindowStep p nodesToTraverse)
      (prevNode, prevNode.timestamp, (0 : Int), (0 : Nat), ([] : List Int))
    let weightedSum := fin.2.2.2.2.foldl (· + ·) 0
    let weightsBig : Int := (fin.2.2.2.1 : Int)
    let weightedSumDiv := weightedSum / weightsBig
    let nextDiffBig := weightedSumDiv * oldDiffBig / 2 ^ 32
    let nextDiffBig2 :=
      if oldDiffBig = 0 then nextDiffBig
      else if nextDiffBig = 0 then p.powLimit
      else if nextDiffBig > nextDiffBigMax then nextDiffBigMax
      else if nextDiffBig < nextDiffBigMin then nextDiffBigMin
      else nextDiffBig
    let nextDiffBig3 := if nextDiffBig2 > p.powLimit then p.powLimit else nextDiffBig2
    bigToCompact nextDiffBig3

theorem int_ediv_ediv (a b c : Int) (ha : 0 ≤ a) (hb : 0 < b) (hc : 0 < c) :
    a / b / c = a / (b * c) := by
  obtain ⟨a2, rfl⟩ := Int.eq_ofNat_of_zero_le ha
  obtain ⟨b2, rfl⟩ := Int.eq_ofNat_of_zero_le hb.le
  obtain ⟨c2, rfl⟩ := Int.eq_ofNat_of_zero_le hc.le
  rw [← Int.natCast_div, ← Int.natCast_div, ← Int.natCast_mul, ← Int.natCast_div,
    Nat.div_div_eq_div_mul]

theorem clamp_eq_max_min (x a b : Int) :
    (if (if x > a then a else x) < b then b else if x > a then a else x) = max (min x a) b := by
  split_ifs <;> omega

/-- C5 counterexample parameters: mainnet-like maturity and stake window. -/
def cpC5 : ChainParams where
  workDiffAlpha := 1
  workDiffWindowSize := 144
  workDiffWindows := 20
  targetTimespanSecs := 21600
  retargetAdjustmentFactor := 4
  powLimit := 2 ^ 224 - 1
  stakeDiffWindowSize := 144
  coinbaseMaturity := 256
  minimumStakeDiff := 2
  ticketMaturity := 16
  ticketsPerBlock := 5
  ticketPoolSize := 8192
  blockOneSubsidy := 100
  baseSubsidy := 10
  mulSubsidy := 100
  divSubsidy := 101
  subsidyReductionInterval := 6144

/-- A block node at height 3 carrying a stake difficulty of 999. -/
def nodeC5 : BlockNode := .genesis ⟨3, 0, 999, 0, 0, 0⟩

/-- C5 counterexample: at the non-retarget successor height 4, below the stake
start height `CoinbaseMaturity + 1 = 257`, the stake retarget function returns
the network minimum 2 instead of the previous stake difficulty 999. -/
theorem stakeDiffV2_below_start_counterexample :
    (nodeC5.height + 1).tmod cpC5.stakeDiffWindowSize ≠ 0 ∧
    nodeC5.sbits = 999 ∧
    calcNextRequiredStakeDifficultyV2 cpC5 (some nodeC5) = some 2 ∧
    calcNextRequiredStakeDifficultyV2 cpC5 (some nodeC5) ≠ some nodeC5.sbits := by
  decide

/-- C5 (amended): at a non-retarget successor height the windowed retarget
functions return the previous difficulty unchanged — unconditionally for the
Blake256 work difficulty, and for the V2 stake difficulty provided the
successor height is at or above the stake start height `CoinbaseMaturity + 1`
(below it the network minimum is returned instead). -/
theorem nonRetarget_returns_previous_difficulty :
    (∀ (p : ChainParams) (prevNode : BlockNode) (t : Int), 0 < p.workDiffWindowSize →
      (prevNode.height + 1).tmod p.workDiffWindowSize ≠ 0 →
      calcNextBlake256Diff p prevNode t = prevNode.bits) ∧
    (∀ (p : ChainParams) (n : BlockNode), 0 < p.stakeDiffWindowSize →
      p.coinbaseMaturity + 1 ≤ n.height + 1 →
      (n.height + 1).tmod p.stakeDiffWindowSize ≠ 0 →
      calcNextRequiredStakeDifficultyV2 p (some n) = some n.sbits) := by
  constructor
  · intro p prevNode t hws h
    simp only [calcNextBlake256Diff]
    rw [if_pos h]
  · intro p n hws hstart h
    show (if n.height + 1 < p.coinbaseMaturity + 1 then some p.minimumStakeDiff
      else if (n.height + 1).tmod p.stakeDiffWindowSize ≠ 0 then some n.sbits
      else if stakeV2PrevPoolSizeAll p n = 0 then some n.sbits
      else some (calcNextStakeDiffV2 p (n.height + 1) n.sbits (stakeV2PrevPoolSizeAll p n)
        (stakeV2CurPoolSizeAll p n))) = some n.sbits
    rw [if_neg (by omega), if_pos h]

/-- Shared concrete parameters for the difficulty witnesses: stake window 2,
coinbase maturity 1, ticket maturity 1, one ticket per block, pool target 2,
and a small subsidy schedule. -/
def cp6 : ChainParams where
  workDiffAlpha := 1
  workDiffWindowSize := 144
  workDiffWindows := 20
  targetTimespanSecs := 21600
  retargetAdjustmentFactor := 4
  powLimit := 2 ^ 224 - 1
  stakeDiffWindowSize := 2
  coinbaseMaturity := 1
  minimumStakeDiff := 1
  ticketMaturity := 1
  ticketsPerBlock := 1
  ticketPoolSize := 2
  blockOneSubsidy := 100
  baseSubsidy := 10
  mulSubsidy := 1
  divSubsidy := 2
  subsidyReductionInterval := 5

def nodeC0 : BlockNode := .genesis ⟨0, 7, 0, 0, 0, 0⟩

def nodeC1 : BlockNode := .node ⟨1, 7, 0, 3, 1, 0⟩ nodeC0

def nodeC2 : BlockNode := .node ⟨2, 7, 40, 4, 1, 0⟩ nodeC1

def nodeC3 : BlockNode := .node ⟨3, 7, 50, 5, 2, 0⟩ nodeC2

/-- Witness for C5 (amended) at concrete parameters and nodes: successor
height 4 is off the 144-block work window, so the work retarget returns the
previous bits; successor height 3 is off the 2-block stake window and at or
above the start height, so the stake retarget returns the previous stake
difficulty. -/
theorem nonRetarget_returns_previous_difficulty_witness :
    calcNextBlake256Diff cp6 nodeC3 5 = nodeC3.bits ∧
    calcNextRequiredStakeDifficultyV2 cp6 (some nodeC2) = some nodeC2.sbits :=
  ⟨nonRetarget_returns_previous_difficulty.1 cp6 nodeC3 5 (by decide) (by decide),
   nonRetarget_returns_previous_difficulty.2 cp6 nodeC2 (by decide) (by decide) (by decide)⟩

/-- C6: at a retarget successor height at or above the stake start height,
with a nonzero previous pool, the V2 stake difficulty is exactly the DCP0001
closed form: the previous difficulty times the square of the current
pool-plus-immature count, divided (big-integer) by the product of the previous
interval's pool-plus-immature count and the target pool size
`TicketsPerBlock * (TicketPoolSize + TicketMaturity)`, truncated to `int64`,
capped above by `estimateSupply(nextHeight) / TicketPoolSize` and below by the
network minimum stake difficulty. -/
theorem stakeDiffV2_closed_form (p : ChainParams) (n : BlockNode)
    (hstart : p.coinbaseMaturity + 1 ≤ n.height + 1)
    (hret : (n.height + 1).tmod p.stakeDiffWindowSize = 0)
    (hprev : 0 < stakeV2PrevPoolSizeAll p n)
    (hcurd : 0 ≤ n.sbits)
    (hcur : 0 ≤ stakeV2CurPoolSizeAll p n)
    (htarget : 0 < p.ticketsPerBlock * (p.ticketPoolSize + p.ticketMaturity)) :
    calcNextRequiredStakeDifficultyV2 p (some n) =
      some (max (min (toInt64 (n.sbits * stakeV2CurPoolSizeAll p n * stakeV2CurPoolSizeAll p n /
            (stakeV2PrevPoolSizeAll p n *
              (p.ticketsPerBlock * (p.ticketPoolSize + p.ticketMaturity)))))
          ((estimateSupply p (n.height + 1)).tdiv p.ticketPoolSize))
        p.minimumStakeDiff) := by
  show (if n.height + 1 < p.coinbaseMaturity + 1 then some p.minimumStakeDiff
    else if (n.height + 1).tmod p.stakeDiffWindowSize ≠ 0 then some n.sbits
    else if stakeV2PrevPoolSizeAll p n = 0 then some n.sbits
    else some (calcNextStakeDiffV2 p (n.height + 1) n.sbits (stakeV2PrevPoolSizeAll p n)
      (stakeV2CurPoolSizeAll p n))) = _
  rw [if_neg (by omega), if_neg (by simp [hret]), if_neg (by omega)]
  congr 1
  simp only [calcNextStakeDiffV2]
  rw [clamp_eq_max_min]
  rw [int_ediv_ediv _ _ _ (mul_nonneg (mul_nonneg hcurd hcur) hcur) hprev htarget]

/-- Witness for C6 at the concrete chain `nodeC0 .. nodeC3` and parameters
`cp6`. -/
theorem stakeDiffV2_closed_form_witness :
    calcNextRequiredStakeDifficultyV2 cp6 (some nodeC3) =
      some (max (min (toInt64 (nodeC3.sbits * stakeV2CurPoolSizeAll cp6 nodeC3 *
            stakeV2CurPoolSizeAll cp6 nodeC3 / (stakeV2PrevPoolSizeAll cp6 nodeC3 *
              (cp6.ticketsPerBlock * (cp6.ticketPoolSize + cp6.ticketMaturity)))))
          ((estimateSupply cp6 (nodeC3.height + 1)).tdiv cp6.ticketPoolSize))
        cp6.minimumStakeDiff) :=
  stakeDiffV2_closed_form cp6 nodeC3 (by decide) (by decide) (by decide) (by decide) (by decide)
    (by decide)

/-- C7: the coin supply estimator, computed in Go `int64` arithmetic, is
monotonically non-decreasing in the height for every non-negative height,
provided the subsidy schedule is sane and free of 64-bit overflow: reduction
interval at least 2, non-negative base and block-one subsidies, non-negative
multiplier strictly below the divisor (so the subsidy decays), the first
subsidy multiplication within `int64` range, and the closed-form supply bound
`BlockOneSubsidy + Interval * (Div * Base / (Div - Mul)) + Interval * Base +
2 * Base` within `int64` range — conditions every real network's parameters
satisfy, and under which no accumulation step wraps at any height. -/
theorem estimateSupply_monotone (p : ChainParams) (h : Int)
    (hh : 0 ≤ h) (hsri : 2 ≤ p.subsidyReductionInterval) (hbase : 0 ≤ p.baseSubsidy)
    (hmul : 0 ≤ p.mulSubsidy) (hdecay : p.mulSubsidy < p.divSubsidy)
    (hone : 0 ≤ p.blockOneSubsidy)
    (hmulov : p.baseSubsidy * p.mulSubsidy < 2 ^ 63)
    (hbound : p.blockOneSubsidy +
        p.subsidyReductionInterval *
          (p.divSubsidy * p.baseSubsidy / (p.divSubsidy - p.mulSubsidy)) +
        p.subsidyReductionInterval * p.baseSubsidy + 2 * p.baseSubsidy < 2 ^ 63) :
    estimateSupply p h ≤ estimateSupply p (h + 1) := by
  have hdiv : 0 < p.divSubsidy := by omega
  have hd2 : 0 < p.divSubsidy - p.mulSubsidy := by omega
  have hQ0 : 0 ≤ p.divSubsidy * p.baseSubsidy / (p.divSubsidy - p.mulSubsidy) :=
    Int.ediv_nonneg (mul_nonneg hdiv.le hbase) hd2.le
  have hSRIbase : 0 ≤ p.subsidyReductionInterval * p.baseSubsidy := mul_nonneg (by omega) hbase
  have hSRIQ : 0 ≤ p.subsidyReductionInterval *
      (p.divSubsidy * p.baseSubsidy / (p.divSubsidy - p.mulSubsidy)) :=
    mul_nonneg (by omega) hQ0
  have hbaselt : p.baseSubsidy < 2 ^ 63 := by omega
  have inv : ∀ k, (0 ≤ subsidyAt p k ∧ subsidyAt p k ≤ p.baseSubsidy) ∧
      (p.divSubsidy - p.mulSubsidy) * subsidySum p k + p.divSubsidy * subsidyAt p k ≤
        p.divSubsidy * p.baseSubsidy ∧
      0 ≤ subsidySum p k ∧
      supplyAfter p k = p.blockOneSubsidy + p.subsidyReductionInterval * subsidySum p k := by
    intro k
    induction k with
    | zero =>
      refine ⟨⟨hbase, le_rfl⟩, ?_, le_rfl, ?_⟩
      · simp [subsidySum, subsidyAt]
      · simp [supplyAfter, subsidySum]
    | succ k ih =>
      obtain ⟨⟨hs0, hsb⟩, htel, hsum0, hsup⟩ := ih
      have hmul0 : 0 ≤ subsidyAt p k * p.mulSubsidy := mul_nonneg hs0 hmul
      have hmulub : subsidyAt p k * p.mulSubsidy ≤ p.baseSubsidy * p.mulSubsidy :=
        mul_le_mul_of_nonneg_right hsb hmul
      have hw1 : toInt64 (subsidyAt p k * p.mulSubsidy) = subsidyAt p k * p.mulSubsidy :=
        toInt64_eq_self _ (by omega) (by omega)
      have htd : (subsidyAt p k * p.mulSubsidy).tdiv p.divSubsidy =
          subsidyAt p k * p.mulSubsidy / p.divSubsidy :=
        Int.tdiv_eq_ediv hmul0 hdiv.le
      have hq0 : 0 ≤ subsidyAt p k * p.mulSubsidy / p.divSubsidy :=
        Int.ediv_nonneg hmul0 hdiv.le
      have hqle : subsidyAt p k * p.mulSubsidy / p.divSubsidy ≤ subsidyAt p k := by
        have h1 : subsidyAt p k * p.mulSubsidy ≤ subsidyAt p k * p.divSubsidy :=
          mul_le_mul_of_nonneg_left hdecay.le hs0
        calc subsidyAt p k * p.mulSubsidy / p.divSubsidy
            ≤ subsidyAt p k * p.divSubsidy / p.divSubsidy := Int.ediv_le_ediv hdiv h1
          _ = subsidyAt p k := Int.mul_ediv_cancel _ (ne_of_gt hdiv)
      have hsnext : subsidyAt p (k + 1) = subsidyAt p k * p.mulSubsidy / p.divSubsidy := by
        show toInt64 ((toInt64 (subsidyAt p k * p.mulSubsidy)).tdiv p.divSubsidy) = _
        rw [hw1, htd]
        exact toInt64_eq_self _ (by omega) (by omega)
      have hstep : p.divSubsidy * subsidyAt p (k + 1) ≤ p.mulSubsidy * subsidyAt p k := by
        rw [hsnext]
        have he := Int.ediv_add_emod (subsidyAt p k * p.mulSubsidy) p.divSubsidy
        have hm2 := Int.emod_nonneg (subsidyAt p k * p.mulSubsidy) (ne_of_gt hdiv)
        linarith [he, hm2]
      have hs0n : 0 ≤ subsidyAt p (k + 1) := by
        rw [hsnext]
        exact hq0
      have hsbn : subsidyAt p (k + 1) ≤ p.baseSubsidy := by
        rw [hsnext]
        exact le_trans hqle hsb
      have hsumstep : subsidySum p (k + 1) = subsidySum p k + subsidyAt p k := rfl
      have hteln : (p.divSubsidy - p.mulSubsidy) * subsidySum p (k + 1) +
          p.divSubsidy * subsidyAt p (k + 1) ≤ p.divSubsidy * p.baseSubsidy := by
        rw [hsumstep]
        nlinarith [htel, hstep]
      have hsum0n : 0 ≤ subsidySum p (k + 1) := by
        rw [hsumstep]
        exact add_nonneg hsum0 hs0
      have hsumQ : subsidySum p k ≤
          p.divSubsidy * p.baseSubsidy / (p.divSubsidy - p.mulSubsidy) := by
        apply (Int.le_ediv_iff_mul_le hd2).mpr
        nlinarith [htel, mul_nonneg hdiv.le hs0]
      have hsrs0 : 0 ≤ p.subsidyReductionInterval * subsidyAt p k := mul_nonneg (by omega) hs0
      have hsrsub : p.subsidyReductionInterval * subsidyAt p k ≤
          p.subsidyReductionInterval * p.baseSubsidy := mul_le_mul_of_nonneg_left hsb (by omega)
      have hsums0 : 0 ≤ p.subsidyReductionInterval * subsidySum p k :=
        mul_nonneg (by omega) hsum0
      have hsumsle : p.subsidyReductionInterval * subsidySum p k ≤
          p.subsidyReductionInterval *
            (p.divSubsidy * p.baseSubsidy / (p.divSubsidy - p.mulSubsidy)) :=
        mul_le_mul_of_nonneg_left hsumQ (by omega)
      have hw2 : toInt64 (p.subsidyReductionInterval * subsidyAt p k) =
          p.subsidyReductionInterval * subsidyAt p k :=
        toInt64_eq_self _ (by omega) (by omega)
      have hsupn : supplyAfter p (k + 1) =
          p.blockOneSubsidy + p.subsidyReductionInterval * subsidySum p (k + 1) := by
        show toInt64 (supplyAfter p k + toInt64 (p.subsidyReductionInterval * subsidyAt p k)) = _
        rw [hw2, hsup, toInt64_eq_self _ (by omega) (by omega), hsumstep]
        ring
      exact ⟨⟨hs0n, hsbn⟩, hteln, hsum0n, hsupn⟩
  have closed : ∀ x : Int, 0 < x →
      estimateSupply p x = p.blockOneSubsidy +
        p.subsidyReductionInterval * subsidySum p (x.tdiv p.subsidyReductionInterval).toNat +
        (1 + x.tmod p.subsidyReductionInterval) *
          subsidyAt p (x.tdiv p.subsidyReductionInterval).toNat -
        p.baseSubsidy * 2 := by
    intro x hx
    obtain ⟨⟨hs0, hsb⟩, htel, hsum0, hsup⟩ := inv (x.tdiv p.subsidyReductionInterval).toNat
    have hre : x.tmod p.subsidyReductionInterval = x % p.subsidyReductionInterval :=
      @Int.tmod_eq_emod x p.subsidyReductionInterval (by omega) (by omega)
    have hr0 : 0 ≤ x.tmod p.subsidyReductionInterval := by
      rw [hre]
      exact Int.emod_nonneg x (by omega)
    have hrlt : x.tmod p.subsidyReductionInterval < p.subsidyReductionInterval := by
      rw [hre]
      exact Int.emod_lt_of_pos x (by omega)
    have hps0 : 0 ≤ (1 + x.tmod p.subsidyReductionInterval) *
        subsidyAt p (x.tdiv p.subsidyReductionInterval).toNat := mul_nonneg (by omega) hs0
    have hpsub : (1 + x.tmod p.subsidyReductionInterval) *
        subsidyAt p (x.tdiv p.subsidyReductionInterval).toNat ≤
        p.subsidyReductionInterval * p.baseSubsidy := by
      calc (1 + x.tmod p.subsidyReductionInterval) *
          subsidyAt p (x.tdiv p.subsidyReductionInterval).toNat
          ≤ p.subsidyReductionInterval *
            subsidyAt p (x.tdiv p.subsidyReductionInterval).toNat :=
            mul_le_mul_of_nonneg_right (by omega) hs0
        _ ≤ p.subsidyReductionInterval * p.baseSubsidy :=
            mul_le_mul_of_nonneg_left hsb (by omega)
    have hsumQ : subsidySum p (x.tdiv p.subsidyReductionInterval).toNat ≤
        p.divSubsidy * p.baseSubsidy / (p.divSubsidy - p.mulSubsidy) := by
      apply (Int.le_ediv_iff_mul_le hd2).mpr
      nlinarith [htel, mul_nonneg hdiv.le hs0]
    have hsums0 : 0 ≤ p.subsidyReductionInterval *
        subsidySum p (x.tdiv p.subsidyReductionInterval).toNat := mul_nonneg (by omega) hsum0
    have hsumsle : p.subsidyReductionInterval *
        subsidySum p (x.tdiv p.subsidyReductionInterval).toNat ≤
        p.subsidyReductionInterval *
          (p.divSubsidy * p.baseSubsidy / (p.divSubsidy - p.mulSubsidy)) :=
      mul_le_mul_of_nonneg_left hsumQ (by omega)
    unfold estimateSupply
    rw [if_neg (by omega)]
    dsimp only
    rw [hsup]
    rw [toInt64_eq_self ((1 + x.tmod p.subsidyReductionInterval) *
      subsidyAt p (x.tdiv p.subsidyReductionInterval).toNat) (by omega) (by omega)]
    rw [toInt64_eq_self (p.baseSubsidy * 2) (by omega) (by omega)]
    rw [toInt64_eq_self (p.blockOneSubsidy +
      p.subsidyReductionInterval * subsidySum p (x.tdiv p.subsidyReductionInterval).toNat +
      (1 + x.tmod p.subsidyReductionInterval) *
        subsidyAt p (x.tdiv p.subsidyReductionInterval).toNat) (by omega) (by omega)]
    rw [toInt64_eq_self _ (by omega) (by omega)]
  rcases eq_or_lt_of_le hh with h0 | hpos
  · have hzero : h = 0 := h0.symm
    subst hzero
    have e0 : estimateSupply p 0 = 0 := by
      unfold estimateSupply
      rw [if_pos le_rfl]
    have hr : (0 + 1 : Int).tdiv p.subsidyReductionInterval = 0 := by
      rw [Int.tdiv_eq_ediv (by norm_num) (by omega)]
      exact Int.ediv_eq_zero_of_lt (by norm_num) (by omega)
    have hm : (0 + 1 : Int).tmod p.subsidyReductionInterval = 1 := by
      rw [Int.tmod_eq_emod (by norm_num) (by omega)]
      exact Int.emod_eq_of_lt (by norm_num) (by omega)
    rw [e0, closed (0 + 1) (by norm_num), hr, hm]
    simp only [Int.toNat_zero, subsidySum, subsidyAt, mul_zero]
    omega
  · have hS : (0 : Int) < p.subsidyReductionInterval := by omega
    have hqr := Int.ediv_add_emod h p.subsidyReductionInterval
    have hr0 : 0 ≤ h % p.subsidyReductionInterval := Int.emod_nonneg h (ne_of_gt hS)
    have hrlt : h % p.subsidyReductionInterval < p.subsidyReductionInterval :=
      Int.emod_lt_of_pos h hS
    have hq0 : 0 ≤ h / p.subsidyReductionInterval := Int.ediv_nonneg hpos.le hS.le
    rw [closed h hpos, closed (h + 1) (by omega)]
    rw [@Int.tdiv_eq_ediv h p.subsidyReductionInterval (by omega) (by omega),
      @Int.tmod_eq_emod h p.subsidyReductionInterval (by omega) (by omega),
      @Int.tdiv_eq_ediv (h + 1) p.subsidyReductionInterval (by omega) (by omega),
      @Int.tmod_eq_emod (h + 1) p.subsidyReductionInterval (by omega) (by omega)]
    by_cases hcase : h % p.subsidyReductionInterval + 1 < p.subsidyReductionInterval
    · have e1 : h + 1 = p.subsidyReductionInterval * (h / p.subsidyReductionInterval) +
          (h % p.subsidyReductionInterval + 1) := by linarith [hqr]
      have hd1 : (h + 1) / p.subsidyReductionInterval = h / p.subsidyReductionInterval := by
        rw [e1, add_comm, Int.add_mul_ediv_left _ _ (ne_of_gt hS),
          Int.ediv_eq_zero_of_lt (by omega) hcase, zero_add]
      have hm1 : (h + 1) % p.subsidyReductionInterval = h % p.subsidyReductionInterval + 1 := by
        rw [e1, add_comm, Int.add_mul_emod_self_left, Int.emod_eq_of_lt (by omega) hcase]
      rw [hd1, hm1]
      have hs := (inv (h / p.subsidyReductionInterval).toNat).1.1
      have expand : (1 + (h % p.subsidyReductionInterval + 1)) *
          subsidyAt p (h / p.subsidyReductionInterval).toNat =
          (1 + h % p.subsidyReductionInterval) *
            subsidyAt p (h / p.subsidyReductionInterval).toNat +
            subsidyAt p (h / p.subsidyReductionInterval).toNat := by ring
      linarith [hs, expand]
    · have hrS : h % p.subsidyReductionInterval + 1 = p.subsidyReductionInterval := by omega
      have hmul1 : p.subsidyReductionInterval * (h / p.subsidyReductionInterval + 1) =
          p.subsidyReductionInterval * (h / p.subsidyReductionInterval) +
            p.subsidyReductionInterval := by ring
      have e1 : h + 1 = p.subsidyReductionInterval * (h / p.subsidyReductionInterval + 1) := by
        linarith [hqr, hrS, hmul1]
      have hd1 : (h + 1) / p.subsidyReductionInterval = h / p.subsidyReductionInterval + 1 := by
        rw [e1, Int.mul_ediv_cancel_left _ (ne_of_gt hS)]
      have hm1 : (h + 1) % p.subsidyReductionInterval = 0 := by
        rw [e1, Int.mul_emod_right]
      rw [hd1, hm1]
      have ht : (h / p.subsidyReductionInterval + 1).toNat =
          (h / p.subsidyReductionInterval).toNat + 1 := by omega
      rw [ht]
      have hsum : p.subsidyReductionInterval *
          subsidySum p ((h / p.subsidyReductionInterval).toNat + 1) =
          p.subsidyReductionInterval * subsidySum p (h / p.subsidyReductionInterval).toNat +
            p.subsidyReductionInterval * subsidyAt p (h / p.subsidyReductionInterval).toNat := by
        rw [show subsidySum p ((h / p.subsidyReductionInterval).toNat + 1) =
          subsidySum p (h / p.subsidyReductionInterval).toNat +
            subsidyAt p (h / p.subsidyReductionInterval).toNat from rfl]
        ring
      have h1r : (1 : Int) + h % p.subsidyReductionInterval = p.subsidyReductionInterval := by
        omega
      rw [hsum, h1r]
      have hs2 := (inv ((h / p.subsidyReductionInterval).toNat + 1)).1.1
      have hone0 : (1 + (0 : Int)) * subsidyAt p ((h / p.subsidyReductionInterval).toNat + 1) =
          subsidyAt p ((h / p.subsidyReductionInterval).toNat + 1) := by ring
      linarith [hs2, hone0]

/-- Witness for C7 at the concrete parameters `cp6` (interval 5, base subsidy
10, multiplier 1, divisor 2, block-one subsidy 100) and height 7. -/
theorem estimateSupply_monotone_witness :
    estimateSupply cp6 7 ≤ estimateSupply cp6 (7 + 1) :=
  estimateSupply_monotone cp6 7 (by decide) (by decide) (by decide) (by decide) (by decide)
    (by decide) (by decide) (by decide)
